import Mathlib

/-!
Verification development for the MemoryMesh graph persistence and
transaction core.

The repository ships the unit-test suite for its core components
(JsonLineStorage, TransactionManager, GraphValidator, EventEmitter,
MetadataManager) but the implementation modules themselves are not part
of the provided sources.  Every definition below is therefore modelled
from the natural-language specification (spec.md) and from the expected
behaviour documented in the unit tests, at the granularity the
specification itself uses: the persisted file is a sequence of lines,
each non-empty line holding one self-describing JSON record; the
transaction coordinator is a two-state machine with an ordered
compensation list; the event emitter dispatches over the registered
listener list for an event.
-/

namespace MemoryMesh

/-- Modelled from the spec: a JSON value, used both as the persisted
record format of JsonLineStorage and as the runtime-value domain that
GraphValidator checks receive. -/
inductive Json where
  | str (s : String)
  | num (q : Rat)
  | bool (b : Bool)
  | null
  | arr (elems : List Json)
  | obj (fields : List (String × Json))

/-- Modelled from the spec: a Node record of the graph data model
(section 3 of spec.md): a unique name, a node type, and an ordered
sequence of metadata strings.  The constant discriminant tag "node" is
produced by the encoder rather than stored in the structure. -/
structure Node where
  name : String
  nodeType : String
  metadata : List String
deriving DecidableEq, Repr

/-- Modelled from the spec: an Edge record of the graph data model:
directed, typed, with an optional weight in the unit interval. -/
structure Edge where
  «from» : String
  «to» : String
  edgeType : String
  weight : Option Rat := none
deriving DecidableEq, Repr

/-- Modelled from the spec: a Graph snapshot, loaded and saved
wholesale. -/
structure Graph where
  nodes : List Node
  edges : List Edge
deriving DecidableEq, Repr

namespace JsonLineStorage

/-- Modelled from the spec: a single line of the persisted file, as it
stands after the content has been split on line boundaries.  A line is
either empty text, text that is not valid JSON (it fails to decode), or
text that parses to the JSON value carried by the constructor. -/
inductive FileLine where
  | empty
  | invalid (raw : String)
  | record (j : Json)

/-- Modelled from the spec: the outcome of reading the backing file:
its content as lines, an ENOENT failure (file absent), or any other
read failure. -/
inductive ReadResult where
  | content (lines : List FileLine)
  | enoent
  | failure (message : String)

/-- Modelled from the spec: a decoded persisted record, routed by its
discriminant tag into a node or an edge. -/
inductive Record where
  | node (n : Node)
  | edge (e : Edge)
deriving DecidableEq

/-- Decode a JSON value as a string. -/
def decodeString : Json → Option String
  | .str s => some s
  | _ => none

/-- Decode a list of JSON values as a list of strings, failing if any
element is not a string. -/
def decodeStrings : List Json → Option (List String)
  | [] => some []
  | j :: rest =>
    match decodeString j, decodeStrings rest with
    | some s, some l => some (s :: l)
    | _, _ => none

/-- Decode a JSON value as an array of strings. -/
def decodeStringArray : Json → Option (List String)
  | .arr xs => decodeStrings xs
  | _ => none

/-- Modelled from the spec: decode one self-describing JSON record,
routing by the "type" discriminant; any shape mismatch makes the whole
record undecodable. -/
def decodeRecord : Json → Option Record
  | .obj fields =>
    match fields.lookup "type" with
    | some (.str "node") =>
      match fields.lookup "name", fields.lookup "nodeType", fields.lookup "metadata" with
      | some (.str name), some (.str nodeType), some m =>
        match decodeStringArray m with
        | some md => some (.node ⟨name, nodeType, md⟩)
        | none => none
      | _, _, _ => none
    | some (.str "edge") =>
      match fields.lookup "from", fields.lookup "to", fields.lookup "edgeType" with
      | some (.str f), some (.str t), some (.str et) =>
        match fields.lookup "weight" with
        | none => some (.edge ⟨f, t, et, none⟩)
        | some (.num w) => some (.edge ⟨f, t, et, some w⟩)
        | some _ => none
      | _, _, _ => none
    | _ => none
  | _ => none

/-- Modelled from the spec: serialize a node to its self-describing
JSON record. -/
def encodeNode (n : Node) : Json :=
  .obj [("type", .str "node"), ("name", .str n.name), ("nodeType", .str n.nodeType),
        ("metadata", .arr (n.metadata.map Json.str))]

/-- Modelled from the spec: serialize an edge to its self-describing
JSON record; the weight field is present only when the edge has one. -/
def encodeEdge (e : Edge) : Json :=
  .obj ([("type", .str "edge"), ("from", .str e.«from»), ("to", .str e.«to»),
         ("edgeType", .str e.edgeType)] ++
        (match e.weight with
         | some w => [("weight", Json.num w)]
         | none => []))

/-- A line survives the empty-line filter exactly when it is not empty
text. -/
def isNonEmptyLine : FileLine → Bool
  | .empty => false
  | _ => true

/-- Decode one non-empty line; an invalid line or a JSON value that is
not a well-formed record yields none and is skipped. -/
def decodeLine : FileLine → Option Record
  | .empty => none
  | .invalid _ => none
  | .record j => decodeRecord j

/-- Extract the node carried by a record, if any. -/
def nodeOfRecord : Record → Option Node
  | .node n => some n
  | _ => none

/-- Extract the edge carried by a record, if any. -/
def edgeOfRecord : Record → Option Edge
  | .edge e => some e
  | _ => none

/-- Modelled from the spec: the pure core of loadGraph — split content
into lines (already done in the FileLine representation), discard empty
lines, attempt to decode each remaining line, silently skip lines that
fail to decode, and route the decoded records by discriminant. -/
def parseLines (lines : List FileLine) : Graph :=
  let records := (lines.filter isNonEmptyLine).filterMap decodeLine
  { nodes := records.filterMap nodeOfRecord
    edges := records.filterMap edgeOfRecord }

/-- Modelled from the spec: loadGraph over the outcome of the backing
read — content is parsed line by line, a missing file yields the empty
graph, any other read failure is surfaced as an error. -/
def loadGraph : ReadResult → Except String Graph
  | .content lines => .ok (parseLines lines)
  | .enoent => .ok { nodes := [], edges := [] }
  | .failure msg => .error ("Error loading graph: " ++ msg)

/-- Modelled from the spec: saveGraph serializes every node then every
edge, one record per line. -/
def saveGraph (g : Graph) : List FileLine :=
  g.nodes.map (fun n => .record (encodeNode n)) ++
    g.edges.map (fun e => .record (encodeEdge e))

end JsonLineStorage


/-- Modelled from the spec: a value thrown by JavaScript code — either
an Error object carrying a name and a message, or a raw non-Error value
(section 7 of spec.md notes both occur). -/
inductive Thrown where
  | jsError (name : String) (message : String)
  | rawValue (value : String)
deriving DecidableEq, Repr

/-- Construct the plain Error value the coordinator throws for a state
violation. -/
def txError (message : String) : Thrown := .jsError "Error" message

namespace TransactionManager

/-- Modelled from the spec: a registered compensation.  Its label
identifies it; the fails flag records whether invoking it throws, so
that the fault boundary around each compensation can be observed. -/
structure RollbackAction where
  label : String
  fails : Bool := false
deriving DecidableEq, Repr

/-- Modelled from the spec: the observable state of the transaction
coordinator — whether a transaction is Active, the working graph
snapshot, the ordered compensation list, and the log of emitted
lifecycle notifications. -/
structure State where
  inTransaction : Bool
  currentGraph : Option Graph
  rollbackActions : List RollbackAction
  events : List String
deriving DecidableEq, Repr

/-- Modelled from the spec: a freshly constructed coordinator is Idle
with no snapshot, no compensations, and nothing emitted. -/
def State.initial : State := ⟨false, none, [], []⟩

/-- Modelled from the spec: isInTransaction reports whether a
transaction is Active. -/
def isInTransaction (s : State) : Bool := s.inTransaction

/-- Modelled from the spec: beginTransaction fails if already Active;
otherwise it loads a fresh snapshot (the load outcome is passed in
explicitly), transitions to Active on success, and wraps a load failure
in a begin-specific error. -/
def beginTransaction (loadResult : Except Thrown Graph) (s : State) :
    Except Thrown State :=
  if s.inTransaction then .error (txError "Transaction already in progress")
  else
    match loadResult with
    | .ok g =>
      .ok { inTransaction := true, currentGraph := some g, rollbackActions := [],
            events := s.events ++ ["beforeBeginTransaction", "afterBeginTransaction"] }
    | .error _ => .error (txError "Failed to begin transaction")

/-- Modelled from the spec: getCurrentGraph returns the working
snapshot. -/
def getCurrentGraph (s : State) : Option Graph := s.currentGraph

/-- Modelled from the spec: addRollbackAction fails unless Active,
otherwise appends the compensation to the ordered list without
executing it. -/
def addRollbackAction (a : RollbackAction) (s : State) : Except Thrown State :=
  if s.inTransaction then
    .ok { s with rollbackActions := s.rollbackActions ++ [a] }
  else .error (txError "No transaction in progress")

/-- Modelled from the spec: commit fails unless Active, otherwise
clears the compensation list and transitions back to Idle, emitting
before and after notifications.  Commit does not itself persist. -/
def commit (s : State) : Except Thrown State :=
  if s.inTransaction then
    .ok { inTransaction := false, currentGraph := none, rollbackActions := [],
          events := s.events ++ ["beforeCommit", "afterCommit"] }
  else .error (txError "No transaction to commit")

/-- Modelled from the spec: the rollback loop walks the compensation
list (already reversed by the caller), invoking each compensation
inside a local fault boundary: a failure is recorded in the error list
but never stops the walk.  Returns the compensations actually invoked,
in invocation order, together with the recorded failures. -/
def runCompensations : List RollbackAction → List RollbackAction × List String
  | [] => ([], [])
  | a :: rest =>
    let tail := runCompensations rest
    (a :: tail.1,
     (if a.fails then ["Rollback action failed: " ++ a.label] else []) ++ tail.2)

/-- Modelled from the spec: rollback fails unless Active, otherwise
executes every recorded compensation in strict reverse order of
registration under per-action fault boundaries, clears the list, and
transitions to Idle, emitting before and after notifications.  The Ok
payload carries the invoked compensations in invocation order and the
recorded failures. -/
def rollback (s : State) :
    Except Thrown (State × List RollbackAction × List String) :=
  if s.inTransaction then
    let run := runCompensations s.rollbackActions.reverse
    .ok ({ inTransaction := false, currentGraph := none, rollbackActions := [],
           events := s.events ++ ["beforeRollback", "afterRollback"] },
         run.1, run.2)
  else .error (txError "No transaction to rollback")

/-- Modelled from the spec: a caller-supplied operation run inside
withTransaction: it may read and mutate the coordinator state (for
example registering compensations) and either returns a value or
throws. -/
def Operation (α : Type) : Type := State → State × Except Thrown α

/-- Modelled from the spec: withTransaction begins a transaction, runs
the operation, commits and returns its result on normal return, and on
a thrown error rolls back and re-raises the original error unchanged.
The middle component of the result is the list of compensations that
rollback invoked (empty on the commit path). -/
def withTransaction (loadResult : Except Thrown Graph) (op : Operation α)
    (s : State) : State × List RollbackAction × Except Thrown α :=
  match beginTransaction loadResult s with
  | .error e => (s, [], .error e)
  | .ok s1 =>
    match op s1 with
    | (s2, .ok a) =>
      match commit s2 with
      | .ok s3 => (s3, [], .ok a)
      | .error ce =>
        match rollback s2 with
        | .ok (s3, ex, _) => (s3, ex, .error ce)
        | .error re => (s2, [], .error re)
    | (s2, .error e) =>
      match rollback s2 with
      | .ok (s3, ex, _) => (s3, ex, .error e)
      | .error re => (s2, [], .error re)

/-- Register a list of compensations one after the other, stopping at
the first failure, exactly as repeated addRollbackAction calls would. -/
def registerAll (as : List RollbackAction) (s : State) : Except Thrown State :=
  match as with
  | [] => .ok s
  | a :: rest =>
    match addRollbackAction a s with
    | .ok s1 => registerAll rest s1
    | .error e => .error e

/-- Operation used by the C5 witness: register one cleanup compensation
and then throw the error boom. -/
def boomOperation : Operation Nat := fun st =>
  match addRollbackAction ⟨"cleanup", false⟩ st with
  | .ok st1 => (st1, .error (.jsError "Error" "boom"))
  | .error e2 => (st, .error e2)

end TransactionManager

end MemoryMesh

namespace MemoryMesh.GraphValidator

/-- Check whether a runtime value is a string. -/
def isStringValue : MemoryMesh.Json → Bool
  | .str _ => true
  | _ => false

/-- Modelled from the spec: validateNodeNamesArray fails with the fixed
message "nodeNames must be an array" when the supplied value is not a
sequence (the message expected by the unit tests names the parameter,
it does not interpolate the supplied value), fails with "All node names
must be strings" when any element of the sequence is not a string, and
accepts any all-string sequence, the empty one included. -/
def validateNodeNamesArray (value : MemoryMesh.Json) : Except String Unit :=
  match value with
  | .arr xs =>
    if xs.all isStringValue then .ok ()
    else .error "All node names must be strings"
  | _ => .error "nodeNames must be an array"

end MemoryMesh.GraphValidator

namespace MemoryMesh.EventEmitter

/-- Modelled from the spec: the observable behaviour of a registered
listener when invoked — return normally, throw an Error object, or
throw a raw non-Error value. -/
inductive ListenerBehavior where
  | ok
  | throwError (message : String)
  | throwRaw (value : String)
deriving DecidableEq, Repr

/-- Modelled from the spec: a registered listener, identified so that
its invocation can be observed in the dispatch log. -/
structure Listener where
  id : Nat
  behavior : ListenerBehavior
deriving DecidableEq, Repr

/-- Modelled from the spec: the emitter registry, mapping event names
to their registered listeners in registration order. -/
structure Registry where
  events : List (String × List Listener)

/-- Listeners currently registered for an event, in registration
order; an unknown event has none. -/
def getListeners (em : Registry) (event : String) : List Listener :=
  match em.events.lookup event with
  | some ls => ls
  | none => []

/-- Modelled from the spec: how a thrown value is captured and
described in the aggregated error — Error and non-Error throws alike. -/
def describeThrown : ListenerBehavior → Option String
  | .ok => none
  | .throwError m => some ("Error: " ++ m)
  | .throwRaw v => some ("Non-Error thrown: " ++ v)

/-- Modelled from the spec: the dispatch loop — invoke every listener
of the snapshot in order inside a per-listener fault boundary,
returning the ids invoked (in order) and the descriptions of all
captured throws (in order). -/
def dispatch : List Listener → List Nat × List String
  | [] => ([], [])
  | l :: rest =>
    let tail := dispatch rest
    (l.id :: tail.1, (describeThrown l.behavior).toList ++ tail.2)

/-- Modelled from the spec: the single aggregated error raised after a
dispatch in which one or more listeners threw. -/
structure AggregatedError where
  message : String
  errors : List String
deriving DecidableEq, Repr

/-- Modelled from the spec: emit — with no registered listener return
false; otherwise invoke every listener over a snapshot of the list and,
if any threw, raise one aggregated error after dispatch completes,
else return true.  The first component is the invocation log. -/
def emit (em : Registry) (event : String) : List Nat × Except AggregatedError Bool :=
  let ls := getListeners em event
  if ls.isEmpty then ([], .ok false)
  else
    let run := dispatch ls
    (run.1,
     if run.2.isEmpty then .ok true
     else .error ⟨"Multiple errors occurred", run.2⟩)

end MemoryMesh.EventEmitter

namespace MemoryMesh.MetadataManager

/-- Modelled from the spec: one addMetadata request item — the target
node name and the metadata strings to add. -/
structure MetadataAddition where
  nodeName : String
  contents : List String
deriving DecidableEq, Repr

/-- Modelled from the spec: one addMetadata result item — the target
node name and the metadata strings actually appended. -/
structure MetadataResult where
  nodeName : String
  addedMetadata : List String
deriving DecidableEq, Repr

/-- Modelled from the spec: apply a single metadata addition to the
in-memory graph snapshot — find the target node (failing when absent),
keep only those requested strings not already present on the node,
append them to the node's metadata, and report them as added. -/
def applyAddition (g : MemoryMesh.Graph) (a : MetadataAddition) :
    Except MemoryMesh.Thrown (MemoryMesh.Graph × MetadataResult) :=
  match g.nodes.find? (fun n => n.name == a.nodeName) with
  | none => .error (MemoryMesh.txError ("Node not found: " ++ a.nodeName))
  | some node =>
    let newMetadata := a.contents.filter (fun c => !(node.metadata.contains c))
    let updated : MemoryMesh.Node := { node with metadata := node.metadata ++ newMetadata }
    .ok ({ g with nodes :=
             g.nodes.map (fun n => if n.name == a.nodeName then updated else n) },
         ⟨a.nodeName, newMetadata⟩)

/-- Modelled from the spec: addMetadata applies each request item in
order to the working snapshot, collecting one result per item, and
fails on the first item whose target node does not exist. -/
def addMetadata : List MetadataAddition → MemoryMesh.Graph →
    Except MemoryMesh.Thrown (MemoryMesh.Graph × List MetadataResult)
  | [], g => .ok (g, [])
  | a :: rest, g =>
    match applyAddition g a with
    | .error e => .error e
    | .ok (g1, r) =>
      match addMetadata rest g1 with
      | .error e => .error e
      | .ok (g2, rs) => .ok (g2, r :: rs)

end MemoryMesh.MetadataManager

namespace MemoryMesh.JsonLineStorage

theorem decode_encodeNode (n : Node) :
    decodeRecord (encodeNode n) = some (.node n) := by
  have h : decodeStrings (n.metadata.map Json.str) = some n.metadata := by
    induction n.metadata with
    | nil => rfl
    | cons a l ih => simp [decodeStrings, decodeString, ih]
  simp [decodeRecord, encodeNode, List.lookup, decodeStringArray, h]

theorem decode_encodeEdge (e : Edge) :
    decodeRecord (encodeEdge e) = some (.edge e) := by
  cases e with
  | mk f t et w =>
    cases w with
    | none => simp [decodeRecord, encodeEdge, List.lookup]
    | some q => simp [decodeRecord, encodeEdge, List.lookup]

theorem decodeLine_encodedNodes (ns : List Node) :
    (ns.map fun n => FileLine.record (encodeNode n)).filterMap decodeLine =
      ns.map Record.node := by
  induction ns with
  | nil => rfl
  | cons a l ih => simp [List.filterMap_cons, decodeLine, decode_encodeNode, ih]

theorem decodeLine_encodedEdges (es : List Edge) :
    (es.map fun e => FileLine.record (encodeEdge e)).filterMap decodeLine =
      es.map Record.edge := by
  induction es with
  | nil => rfl
  | cons a l ih => simp [List.filterMap_cons, decodeLine, decode_encodeEdge, ih]

theorem nodeOfRecord_nodes (ns : List Node) :
    (ns.map Record.node).filterMap nodeOfRecord = ns := by
  induction ns with
  | nil => rfl
  | cons a l ih => simp [List.filterMap_cons, nodeOfRecord, ih]

theorem nodeOfRecord_edges (es : List Edge) :
    (es.map Record.edge).filterMap nodeOfRecord = [] := by
  induction es with
  | nil => rfl
  | cons a l ih => simp [List.filterMap_cons, nodeOfRecord, ih]

theorem edgeOfRecord_nodes (ns : List Node) :
    (ns.map Record.node).filterMap edgeOfRecord = [] := by
  induction ns with
  | nil => rfl
  | cons a l ih => simp [List.filterMap_cons, edgeOfRecord, ih]

theorem edgeOfRecord_edges (es : List Edge) :
    (es.map Record.edge).filterMap edgeOfRecord = es := by
  induction es with
  | nil => rfl
  | cons a l ih => simp [List.filterMap_cons, edgeOfRecord, ih]

theorem parseLines_saveGraph (g : Graph) : parseLines (saveGraph g) = g := by
  have hfilter : (saveGraph g).filter isNonEmptyLine = saveGraph g := by
    apply List.filter_eq_self.mpr
    intro l hl
    simp [saveGraph] at hl
    rcases hl with ⟨n, _, rfl⟩ | ⟨e, _, rfl⟩ <;> rfl
  have hdec : (saveGraph g).filterMap decodeLine =
      g.nodes.map Record.node ++ g.edges.map Record.edge := by
    simp only [saveGraph, List.filterMap_append, decodeLine_encodedNodes,
      decodeLine_encodedEdges]
  cases g with
  | mk ns es =>
    simp only [parseLines, hfilter, hdec, List.filterMap_append,
      nodeOfRecord_nodes, nodeOfRecord_edges, edgeOfRecord_nodes,
      edgeOfRecord_edges, List.append_nil, List.nil_append]

/-- C1: round trip — for every graph G, saving G and loading the result
back (or loading any reordering of the persisted records) yields a graph
whose node set and edge set are, up to permutation, exactly G's. -/
theorem saveGraph_loadGraph_roundtrip (G : Graph) (f : List FileLine)
    (h : f.Perm (saveGraph G)) :
    ∃ G2, loadGraph (.content f) = .ok G2 ∧
      G2.nodes.Perm G.nodes ∧ G2.edges.Perm G.edges := by
  refine ⟨parseLines f, rfl, ?_, ?_⟩
  · have hp : (parseLines f).nodes.Perm (parseLines (saveGraph G)).nodes :=
      ((h.filter isNonEmptyLine).filterMap decodeLine).filterMap nodeOfRecord
    rwa [parseLines_saveGraph] at hp
  · have hp : (parseLines f).edges.Perm (parseLines (saveGraph G)).edges :=
      ((h.filter isNonEmptyLine).filterMap decodeLine).filterMap edgeOfRecord
    rwa [parseLines_saveGraph] at hp

/-- C1 witness: a two-record graph loads back unchanged even when the
persisted node and edge records are read in swapped order. -/
theorem saveGraph_loadGraph_roundtrip_witness :
    (([FileLine.record (encodeEdge ⟨"a", "b", "knows", none⟩),
       FileLine.record (encodeNode ⟨"n1", "npc", ["m1"]⟩)] :
        List FileLine).Perm
      (saveGraph ⟨[⟨"n1", "npc", ["m1"]⟩], [⟨"a", "b", "knows", none⟩]⟩)) ∧
    ∃ G2,
      loadGraph (.content
        [FileLine.record (encodeEdge ⟨"a", "b", "knows", none⟩),
         FileLine.record (encodeNode ⟨"n1", "npc", ["m1"]⟩)]) = .ok G2 ∧
      G2.nodes.Perm [⟨"n1", "npc", ["m1"]⟩] ∧
      G2.edges.Perm [⟨"a", "b", "knows", none⟩] := by
  have h : (([FileLine.record (encodeEdge ⟨"a", "b", "knows", none⟩),
       FileLine.record (encodeNode ⟨"n1", "npc", ["m1"]⟩)] :
        List FileLine).Perm
      (saveGraph ⟨[⟨"n1", "npc", ["m1"]⟩], [⟨"a", "b", "knows", none⟩]⟩)) :=
    List.Perm.swap _ _ _
  exact ⟨h, saveGraph_loadGraph_roundtrip ⟨[⟨"n1", "npc", ["m1"]⟩], [⟨"a", "b", "knows", none⟩]⟩ _ h⟩

/-- C6: malformed-line tolerance — an undecodable line or an empty line
anywhere in the file changes nothing about the loaded graph, and the
concrete file holding one well-formed node line, one empty line, one
malformed line, and one well-formed edge line loads, without an error,
to exactly that one node and that one edge. -/
theorem loadGraph_skips_bad_lines (l1 l2 : List FileLine) (raw : String)
    (n : Node) (e : Edge) :
    parseLines (l1 ++ [FileLine.invalid raw] ++ l2) = parseLines (l1 ++ l2) ∧
    parseLines (l1 ++ [FileLine.empty] ++ l2) = parseLines (l1 ++ l2) ∧
    loadGraph (.content
        [FileLine.record (encodeNode n), FileLine.empty,
         FileLine.invalid raw, FileLine.record (encodeEdge e)]) =
      .ok { nodes := [n], edges := [e] } := by
  refine ⟨?_, ?_, ?_⟩
  · simp [parseLines, List.filter_append, isNonEmptyLine, List.filterMap_append,
      decodeLine]
  · simp [parseLines, List.filter_append, isNonEmptyLine]
  · simp [loadGraph, parseLines, isNonEmptyLine, List.filterMap_cons, decodeLine,
      decode_encodeNode, decode_encodeEdge, nodeOfRecord, edgeOfRecord]

/-- C7: missing-file recovery — an ENOENT read outcome yields the empty
graph without an error, while every other read failure is surfaced to
the caller as an error. -/
theorem loadGraph_enoent_recovery :
    loadGraph .enoent = .ok { nodes := [], edges := [] } ∧
    ∀ msg, ∃ err, loadGraph (.failure msg) = .error err := by
  exact ⟨rfl, fun msg => ⟨"Error loading graph: " ++ msg, rfl⟩⟩

end MemoryMesh.JsonLineStorage

namespace MemoryMesh.TransactionManager

theorem runCompensations_all (l : List RollbackAction) :
    (runCompensations l).1 = l := by
  induction l with
  | nil => rfl
  | cons a rest ih => simp [runCompensations, ih]

theorem runCompensations_errors (l : List RollbackAction) :
    (runCompensations l).2 =
      l.filterMap fun a =>
        if a.fails then some ("Rollback action failed: " ++ a.label) else none := by
  induction l with
  | nil => rfl
  | cons a rest ih =>
    by_cases h : a.fails <;> simp [runCompensations, List.filterMap_cons, h, ih]

theorem registerAll_ok (as : List RollbackAction) :
    ∀ s : State, s.inTransaction = true →
      registerAll as s = .ok { s with rollbackActions := s.rollbackActions ++ as } := by
  induction as with
  | nil => intro s _; simp [registerAll]
  | cons a rest ih =>
    intro s hs
    have h1 : addRollbackAction a s =
        .ok { s with rollbackActions := s.rollbackActions ++ [a] } := by
      simp [addRollbackAction, hs]
    have h2 := ih { s with rollbackActions := s.rollbackActions ++ [a] } hs
    simp only [registerAll, h1, h2]
    simp [List.append_assoc]

/-- C2: transaction state machine — beginTransaction fails with
"Transaction already in progress" exactly when a transaction is already
Active; while Idle, commit, rollback and addRollbackAction fail with
their specific messages; and every successful commit or rollback leaves
isInTransaction false. -/
theorem transaction_state_machine (s : State) (load : Except Thrown Graph)
    (a : RollbackAction) :
    (beginTransaction load s = .error (txError "Transaction already in progress") ↔
      isInTransaction s = true) ∧
    (isInTransaction s = false →
      commit s = .error (txError "No transaction to commit") ∧
      rollback s = .error (txError "No transaction to rollback") ∧
      addRollbackAction a s = .error (txError "No transaction in progress")) ∧
    (isInTransaction s = true →
      (∃ s2, commit s = .ok s2) ∧ (∃ r, rollback s = .ok r)) ∧
    (∀ s2, commit s = .ok s2 → isInTransaction s2 = false) ∧
    (∀ s2 ex errs, rollback s = .ok (s2, ex, errs) → isInTransaction s2 = false) := by
  cases hs : s.inTransaction with
  | true =>
    refine ⟨⟨fun _ => hs, fun _ => by simp [beginTransaction, hs]⟩,
      fun h => by simp [isInTransaction, hs] at h, fun _ => ?_, ?_, ?_⟩
    · constructor
      · exact ⟨⟨false, none, [], s.events ++ ["beforeCommit", "afterCommit"]⟩,
          by simp [commit, hs]⟩
      · exact ⟨(⟨false, none, [], s.events ++ ["beforeRollback", "afterRollback"]⟩,
          (runCompensations s.rollbackActions.reverse).1,
          (runCompensations s.rollbackActions.reverse).2), by simp [rollback, hs]⟩
    · intro s2 h
      simp only [commit, hs, if_true, Except.ok.injEq] at h
      rw [← h]
      rfl
    · intro s2 ex errs h
      simp only [rollback, hs, if_true, Except.ok.injEq, Prod.mk.injEq] at h
      rw [← h.1]
      rfl
  | false =>
    refine ⟨⟨fun h => ?_, fun h => by simp [isInTransaction, hs] at h⟩,
      fun _ => ⟨by simp [commit, hs], by simp [rollback, hs],
        by simp [addRollbackAction, hs]⟩,
      fun h => by simp [isInTransaction, hs] at h, ?_, ?_⟩
    · exfalso
      cases load with
      | ok g => simp [beginTransaction, hs] at h
      | error e =>
        simp [beginTransaction, hs, txError] at h
    · intro s2 h
      simp [commit, hs] at h
    · intro s2 ex errs h
      simp [rollback, hs] at h

/-- C2 witness: on a fresh Idle coordinator the three Idle-state calls
fail with their specific messages, beginTransaction does not fail with
the already-in-progress message, and after a begin and a commit the
coordinator reports no transaction. -/
theorem transaction_state_machine_witness :
    commit State.initial = .error (txError "No transaction to commit") ∧
    rollback State.initial = .error (txError "No transaction to rollback") ∧
    addRollbackAction ⟨"a", false⟩ State.initial =
      .error (txError "No transaction in progress") ∧
    ¬(beginTransaction (.ok ⟨[], []⟩) State.initial =
        .error (txError "Transaction already in progress")) ∧
    (∀ s2, commit ⟨true, none, [], []⟩ = .ok s2 → isInTransaction s2 = false) := by
  have h := transaction_state_machine State.initial (.ok ⟨[], []⟩) ⟨"a", false⟩
  have hidle : isInTransaction State.initial = false := rfl
  have h2 := transaction_state_machine (⟨true, none, [], []⟩ : State)
    (.ok ⟨[], []⟩) ⟨"a", false⟩
  exact ⟨(h.2.1 hidle).1, (h.2.1 hidle).2.1, (h.2.1 hidle).2.2,
    fun hc => by simpa [hidle] using h.1.mp hc, h2.2.2.2.1⟩

/-- C3: reverse-order rollback — registering compensations in order
through addRollbackAction and then rolling back invokes them in exactly
the reverse order of registration. -/
theorem rollback_reverse_order (s : State) (as : List RollbackAction)
    (hs : isInTransaction s = true) (h0 : s.rollbackActions = []) :
    ∃ s1, registerAll as s = .ok s1 ∧
      ∃ s2 errs, rollback s1 = .ok (s2, as.reverse, errs) := by
  have hreg := registerAll_ok as s hs
  have hact : s.inTransaction = true := hs
  refine ⟨{ s with rollbackActions := s.rollbackActions ++ as }, hreg,
    ⟨⟨false, none, [], s.events ++ ["beforeRollback", "afterRollback"]⟩,
     (runCompensations as.reverse).2, ?_⟩⟩
  simp only [rollback, hact, if_true, h0, List.nil_append]
  rw [runCompensations_all]

/-- C3 witness: registering compensations A, B, C and rolling back
invokes them in order C, B, A. -/
theorem rollback_reverse_order_witness :
    ∃ s1, registerAll [⟨"A", false⟩, ⟨"B", false⟩, ⟨"C", false⟩]
        (⟨true, none, [], []⟩ : State) = .ok s1 ∧
      ∃ s2 errs, rollback s1 =
        .ok (s2, [⟨"C", false⟩, ⟨"B", false⟩, ⟨"A", false⟩], errs) := by
  have h := rollback_reverse_order (⟨true, none, [], []⟩ : State)
    [⟨"A", false⟩, ⟨"B", false⟩, ⟨"C", false⟩] rfl rfl
  simpa using h

/-- C4: best-effort rollback — whatever the compensation list (failing
compensations included), rollback on an Active coordinator succeeds,
invokes every registered compensation (in reverse registration order),
records a failure message for exactly the failing ones, clears the
list, and transitions to Idle. -/
theorem rollback_best_effort (s : State) (hs : isInTransaction s = true) :
    ∃ s2 errs, rollback s = .ok (s2, s.rollbackActions.reverse, errs) ∧
      (∀ a, a ∈ s.rollbackActions → a ∈ s.rollbackActions.reverse) ∧
      errs = s.rollbackActions.reverse.filterMap
        (fun a => if a.fails then some ("Rollback action failed: " ++ a.label) else none) ∧
      s2.rollbackActions = [] ∧ isInTransaction s2 = false := by
  have hact : s.inTransaction = true := hs
  refine ⟨⟨false, none, [], s.events ++ ["beforeRollback", "afterRollback"]⟩,
    (runCompensations s.rollbackActions.reverse).2, ?_, ?_, ?_, rfl, rfl⟩
  · simp only [rollback, hact, if_true]
    rw [runCompensations_all]
  · intro a ha
    exact List.mem_reverse.mpr ha
  · exact runCompensations_errors _

/-- C4 witness: with a failing compensation registered before a healthy
one, rollback still invokes both (healthy one first), records the one
failure, clears the list and leaves the transaction closed. -/
theorem rollback_best_effort_witness :
    ∃ s2 errs,
      rollback (⟨true, none, [⟨"failing", true⟩, ⟨"ok", false⟩], []⟩ : State) =
        .ok (s2, [⟨"ok", false⟩, ⟨"failing", true⟩], errs) ∧
      (∀ a, a ∈ [(⟨"failing", true⟩ : RollbackAction), ⟨"ok", false⟩] →
        a ∈ [(⟨"ok", false⟩ : RollbackAction), ⟨"failing", true⟩]) ∧
      errs = ["Rollback action failed: failing"] ∧
      s2.rollbackActions = [] ∧ isInTransaction s2 = false := by
  have h := rollback_best_effort
    (⟨true, none, [⟨"failing", true⟩, ⟨"ok", false⟩], []⟩ : State) rfl
  simpa using h

/-- C5: withTransaction — after a successful begin, an operation that
returns normally is committed and its result returned, while an
operation that throws triggers a rollback that invokes every registered
compensation in reverse order and then re-raises the original thrown
value unchanged; either way the coordinator ends Idle. -/
theorem withTransaction_semantics {α : Type} (g : Graph) (op : Operation α)
    (s s1 : State) (hb : beginTransaction (.ok g) s = .ok s1) :
    (∀ a s2, op s1 = (s2, .ok a) → isInTransaction s2 = true →
      ∃ s3, withTransaction (.ok g) op s = (s3, [], .ok a) ∧
        isInTransaction s3 = false) ∧
    (∀ e s2, op s1 = (s2, .error e) → isInTransaction s2 = true →
      ∃ s3, withTransaction (.ok g) op s =
          (s3, s2.rollbackActions.reverse, .error e) ∧
        isInTransaction s3 = false) := by
  constructor
  · intro a s2 hop hact
    have hact2 : s2.inTransaction = true := hact
    refine ⟨⟨false, none, [], s2.events ++ ["beforeCommit", "afterCommit"]⟩, ?_, rfl⟩
    simp only [withTransaction, hb, hop, commit, hact2, if_true]
  · intro e s2 hop hact
    have hact2 : s2.inTransaction = true := hact
    refine ⟨⟨false, none, [], s2.events ++ ["beforeRollback", "afterRollback"]⟩, ?_, rfl⟩
    simp only [withTransaction, hb, hop, rollback, hact2, if_true]
    rw [runCompensations_all]


/-- C5 witness: an operation that registers a cleanup compensation and
then throws the error boom makes withTransaction roll back (invoking
the cleanup) and re-raise boom itself, while an operation returning a
value commits and returns that value. -/
theorem withTransaction_semantics_witness :
    (∃ s3, withTransaction (.ok ⟨[], []⟩) boomOperation State.initial =
      (s3, [⟨"cleanup", false⟩], .error (Thrown.jsError "Error" "boom")) ∧
      isInTransaction s3 = false) ∧
    (∃ s3, withTransaction (.ok ⟨[], []⟩)
        ((fun st => (st, .ok 42)) : Operation Nat) State.initial =
      (s3, [], .ok 42) ∧ isInTransaction s3 = false) := by
  constructor
  · have h := (withTransaction_semantics (⟨[], []⟩ : Graph) boomOperation
      State.initial
      ⟨true, some ⟨[], []⟩, [],
        ["beforeBeginTransaction", "afterBeginTransaction"]⟩ rfl).2
      (.jsError "Error" "boom")
      ⟨true, some ⟨[], []⟩, [⟨"cleanup", false⟩],
        ["beforeBeginTransaction", "afterBeginTransaction"]⟩ rfl rfl
    simpa using h
  · exact (withTransaction_semantics (⟨[], []⟩ : Graph)
      ((fun st => (st, .ok 42)) : Operation Nat) State.initial
      ⟨true, some ⟨[], []⟩, [],
        ["beforeBeginTransaction", "afterBeginTransaction"]⟩ rfl).1
      42 _ rfl rfl

end MemoryMesh.TransactionManager

namespace MemoryMesh.GraphValidator

/-- C9 counterexample: on the non-array value the string not-an-array,
validateNodeNamesArray fails with the fixed message "nodeNames must be
an array", which is not the message obtained by interpolating the
supplied value. -/
theorem validateNodeNamesArray_counterexample :
    validateNodeNamesArray (.str "not-an-array") =
      .error "nodeNames must be an array" ∧
    "nodeNames must be an array" ≠ "not-an-array" ++ " must be an array" := by
  exact ⟨rfl, by decide⟩

/-- C9 (amended): every non-array value fails with the fixed message
"nodeNames must be an array"; an array with a non-string element fails
with "All node names must be strings"; an all-string array, the empty
one included, is accepted. -/
theorem validateNodeNamesArray_spec (v : MemoryMesh.Json) :
    ((∀ xs, v ≠ .arr xs) →
      validateNodeNamesArray v = .error "nodeNames must be an array") ∧
    (∀ xs, v = .arr xs →
      ((∀ x ∈ xs, isStringValue x = true) → validateNodeNamesArray v = .ok ()) ∧
      ((∃ x ∈ xs, isStringValue x = false) →
        validateNodeNamesArray v = .error "All node names must be strings")) ∧
    validateNodeNamesArray (.arr []) = .ok () := by
  refine ⟨?_, ?_, rfl⟩
  · intro hne
    cases v with
    | arr xs => exact absurd rfl (hne xs)
    | str s => rfl
    | num q => rfl
    | bool b => rfl
    | null => rfl
    | obj fields => rfl
  · intro xs hv
    subst hv
    constructor
    · intro hall
      have h : xs.all isStringValue = true := List.all_eq_true.mpr hall
      simp [validateNodeNamesArray, h]
    · intro hex
      obtain ⟨x, hx, hbad⟩ := hex
      have hne : ¬(xs.all isStringValue = true) := by
        intro h2
        have h3 := List.all_eq_true.mp h2 x hx
        rw [hbad] at h3
        exact Bool.false_ne_true h3
      have h : xs.all isStringValue = false := Bool.not_eq_true _ ▸ Bool.eq_false_iff.mpr ?_
      · simp [validateNodeNamesArray, h]
      · intro h2
        exact hne h2

/-- C9 witness (amended claim): a number fails with the fixed
non-array message, a two-string array is accepted, and an array holding
a number among strings fails with the all-strings message. -/
theorem validateNodeNamesArray_spec_witness :
    validateNodeNamesArray (.num 5) = .error "nodeNames must be an array" ∧
    validateNodeNamesArray (.arr [.str "a", .str "b"]) = .ok () ∧
    validateNodeNamesArray (.arr [.str "valid", .num 123]) =
      .error "All node names must be strings" := by
  refine ⟨(validateNodeNamesArray_spec (.num 5)).1
      (fun xs h => MemoryMesh.Json.noConfusion h), ?_, ?_⟩
  · refine ((validateNodeNamesArray_spec (.arr [.str "a", .str "b"])).2.1
      [.str "a", .str "b"] rfl).1 ?_
    intro x hx
    rcases List.mem_cons.mp hx with rfl | hx2
    · rfl
    · rcases List.mem_cons.mp hx2 with rfl | hx3
      · rfl
      · cases hx3
  · exact ((validateNodeNamesArray_spec (.arr [.str "valid", .num 123])).2.1
      [.str "valid", .num 123] rfl).2 ⟨.num 123, by simp, rfl⟩

end MemoryMesh.GraphValidator

namespace MemoryMesh.EventEmitter

theorem dispatch_ids (ls : List Listener) :
    (dispatch ls).1 = ls.map Listener.id := by
  induction ls with
  | nil => rfl
  | cons l rest ih => simp [dispatch, ih]

theorem dispatch_errors (ls : List Listener) :
    (dispatch ls).2 = ls.filterMap fun l => describeThrown l.behavior := by
  induction ls with
  | nil => rfl
  | cons l rest ih =>
    cases hb : l.behavior <;>
      simp [dispatch, List.filterMap_cons, ih, hb, describeThrown]

/-- C8: emit — the invocation log always covers every currently
registered listener for the event, in registration order (so listeners
after a throwing one still run); with no listener registered emit
returns false; with listeners and no throw it returns true; and when
one or more listeners throw, emit raises, after the dispatch has
completed, one aggregated error whose message is "Multiple errors
occurred" and whose recorded failures describe all thrown values,
Error objects and raw values alike, in dispatch order. -/
theorem emit_semantics (em : Registry) (event : String) :
    ((emit em event).1 = (getListeners em event).map Listener.id ∨
      getListeners em event = []) ∧
    (getListeners em event = [] → emit em event = ([], .ok false)) ∧
    (getListeners em event ≠ [] →
      (emit em event).1 = (getListeners em event).map Listener.id) ∧
    (getListeners em event ≠ [] →
      ((getListeners em event).filterMap (fun l => describeThrown l.behavior)) = [] →
      (emit em event).2 = .ok true) ∧
    (((getListeners em event).filterMap (fun l => describeThrown l.behavior)) ≠ [] →
      (emit em event).2 = .error ⟨"Multiple errors occurred",
        (getListeners em event).filterMap (fun l => describeThrown l.behavior)⟩) := by
  cases hls : getListeners em event with
  | nil =>
    refine ⟨Or.inr rfl, fun _ => ?_, fun h => absurd rfl h, fun h => absurd rfl h, ?_⟩
    · simp [emit, hls]
    · intro h
      exact absurd rfl h
  | cons l rest =>
    have hne : ¬((l :: rest : List Listener).isEmpty = true) := by simp
    refine ⟨Or.inl ?_, fun h => List.noConfusion h, fun _ => ?_, fun _ herr => ?_, fun herr => ?_⟩
    · simp only [emit, hls, List.isEmpty_cons, if_neg hne]
      exact dispatch_ids _
    · simp only [emit, hls, List.isEmpty_cons, if_neg hne]
      exact dispatch_ids _
    · simp only [emit, hls, List.isEmpty_cons, if_neg hne]
      rw [dispatch_errors, herr]
      rfl
    · simp only [emit, hls, List.isEmpty_cons, if_neg hne]
      rw [dispatch_errors]
      have h2 : ((l :: rest).filterMap fun l => describeThrown l.behavior).isEmpty = false := by
        cases hcase : ((l :: rest).filterMap fun l => describeThrown l.behavior) with
        | nil => exact absurd hcase herr
        | cons a b => rfl
      rw [h2]
      rfl

/-- C8 witness: emitting on an event with no listeners returns false;
emitting to one healthy listener returns true; and emitting to a
listener that throws an Error, a healthy listener, and a listener that
throws a raw string invokes all three in order and raises one
aggregated error describing both thrown values. -/
theorem emit_semantics_witness :
    emit ⟨[]⟩ "nonexistent" = ([], .ok false) ∧
    (emit ⟨[("test", [⟨1, .ok⟩])]⟩ "test").2 = .ok true ∧
    (emit ⟨[("test", [⟨1, .throwError "Listener error"⟩, ⟨2, .ok⟩,
        ⟨3, .throwRaw "string error"⟩])]⟩ "test").1 = [1, 2, 3] ∧
    (emit ⟨[("test", [⟨1, .throwError "Listener error"⟩, ⟨2, .ok⟩,
        ⟨3, .throwRaw "string error"⟩])]⟩ "test").2 =
      .error ⟨"Multiple errors occurred",
        ["Error: Listener error", "Non-Error thrown: string error"]⟩ := by
  refine ⟨(emit_semantics ⟨[]⟩ "nonexistent").2.1 rfl, ?_, ?_, ?_⟩
  · exact (emit_semantics ⟨[("test", [⟨1, .ok⟩])]⟩ "test").2.2.2.1
      (by simp [getListeners]) (by rfl)
  · have h := (emit_semantics ⟨[("test", [⟨1, .throwError "Listener error"⟩, ⟨2, .ok⟩,
      ⟨3, .throwRaw "string error"⟩])]⟩ "test").2.2.1 (by simp [getListeners])
    simpa [getListeners] using h
  · have h := (emit_semantics ⟨[("test", [⟨1, .throwError "Listener error"⟩, ⟨2, .ok⟩,
      ⟨3, .throwRaw "string error"⟩])]⟩ "test").2.2.2.2 (by simp [getListeners, describeThrown])
    simpa [getListeners, describeThrown] using h

end MemoryMesh.EventEmitter

namespace MemoryMesh.MetadataManager

/-- C10 counterexample: a single addMetadata request whose contents
list holds the same new string twice appends it twice, so the target
node's metadata does acquire a duplicate entry through addMetadata. -/
theorem addMetadata_duplicates_counterexample :
    addMetadata [⟨"alice", ["x", "x"]⟩]
        ⟨[⟨"alice", "character", []⟩], []⟩ =
      .ok (⟨[⟨"alice", "character", ["x", "x"]⟩], []⟩,
        [⟨"alice", ["x", "x"]⟩]) ∧
    ¬(["x", "x"] : List String).Nodup := by
  exact ⟨rfl, by decide⟩

/-- C10 (amended): for every node and every single addition, only the
requested strings not already present on the node are appended, and
exactly those are reported as added; strings already in the node's
metadata appear in neither the appended suffix nor addedMetadata; and
provided the request's contents list has no internal duplicates (and
the node's metadata had none), the node's metadata stays free of
duplicates — a contents list repeating a new string is the one way a
duplicate can arise. -/
theorem addMetadata_dedup (g : MemoryMesh.Graph) (a : MetadataAddition)
    (node : MemoryMesh.Node)
    (hfind : g.nodes.find? (fun n => n.name == a.nodeName) = some node) :
    ∃ g1 r, applyAddition g a = .ok (g1, r) ∧
      r.addedMetadata = a.contents.filter (fun c => !(node.metadata.contains c)) ∧
      (∀ c, c ∈ r.addedMetadata → ¬ c ∈ node.metadata) ∧
      (∀ c, c ∈ a.contents → ¬ c ∈ node.metadata → c ∈ r.addedMetadata) ∧
      g1.nodes = g.nodes.map (fun n => if n.name == a.nodeName then
        { node with metadata := node.metadata ++ r.addedMetadata } else n) ∧
      (node.metadata.Nodup → a.contents.Nodup →
        (node.metadata ++ r.addedMetadata).Nodup) := by
  have key : applyAddition g a =
      .ok ({ g with nodes := g.nodes.map (fun n => if n.name == a.nodeName then
              { node with metadata := node.metadata ++
                a.contents.filter (fun c => !(node.metadata.contains c)) } else n) },
           ⟨a.nodeName, a.contents.filter (fun c => !(node.metadata.contains c))⟩) := by
    simp only [applyAddition, hfind]
  refine ⟨_, _, key, rfl, ?_, ?_, ?_, ?_⟩
  · intro c hc
    have h := List.mem_filter.mp hc
    intro hmem
    have hcon : node.metadata.contains c = true := List.elem_iff.mpr hmem
    rw [hcon] at h
    exact Bool.false_ne_true h.2
  · intro c hc hnm
    refine List.mem_filter.mpr ⟨hc, ?_⟩
    have hcon : node.metadata.contains c = false := by
      cases hcase : node.metadata.contains c with
      | false => rfl
      | true => exact absurd (List.elem_iff.mp hcase) hnm
    rw [hcon]
    rfl
  · rfl
  · intro hnd hcd
    rw [List.nodup_append]
    refine ⟨hnd, hcd.filter _, ?_⟩
    intro c hc1 hc2
    have h := List.mem_filter.mp hc2
    have hcon : node.metadata.contains c = true := List.elem_iff.mpr hc1
    rw [hcon] at h
    exact Bool.false_ne_true h.2

/-- C10 witness: adding brave (already present) and new-tag to a node
carrying brave and hero appends and reports only new-tag, and the
metadata stays duplicate-free. -/
theorem addMetadata_dedup_witness :
    ∃ g1 r, applyAddition ⟨[⟨"alice", "character", ["brave", "hero"]⟩], []⟩
        ⟨"alice", ["brave", "new-tag"]⟩ = .ok (g1, r) ∧
      r.addedMetadata = ["new-tag"] ∧
      (["brave", "hero"] ++ r.addedMetadata).Nodup := by
  have h := addMetadata_dedup ⟨[⟨"alice", "character", ["brave", "hero"]⟩], []⟩
    ⟨"alice", ["brave", "new-tag"]⟩ ⟨"alice", "character", ["brave", "hero"]⟩ rfl
  obtain ⟨g1, r, heq, hadded, _, _, _, hnodup⟩ := h
  refine ⟨g1, r, heq, ?_, ?_⟩
  · rw [hadded]
    rfl
  · have h2 := hnodup (by decide) (by decide)
    rw [hadded] at h2 ⊢
    simp at h2
    simp [h2]


end MemoryMesh.MetadataManager
